import Mathlib

/-!
Shallow embedding of the scope-resolution and execution core of the
pascal-interpreter repository (src/semantic_analyzer.rs, src/interpreter.rs,
src/symbols.rs, with AST node shapes as constructed by src/parser.rs and
consumed by those two passes).

Modelling conventions:
* Rust `i32` payloads are modelled as unbounded `Int`; the saturating
  `f32 as i32` cast and the division panics (`/ 0`, `i32::MIN / -1`) are
  modelled explicitly where the interpreter performs them.
* Rust `f32` is modelled as `ℚ`.  The rounding of values to binary f32
  representations is not modelled; every concrete input used below stays in
  the range where f32 arithmetic is exact.  IEEE special values (the `inf`
  produced by a float division by zero) are likewise not modelled; no claim
  below depends on that path.
* Rust `HashMap` is modelled as an association list where an insert conses a
  new entry in front and a lookup returns the first match, which realises the
  same overwrite/get semantics.
* A Rust panic or `unwrap` failure aborts the run; runs are therefore
  modelled in `Except`, with one error constructor per distinct abort site.
-/

namespace Pascal

/-- Value (src/tokens.rs): Float(f32) | Integer(i32) | Char | String | None. -/
inductive Value where
  | float (q : ℚ)
  | integer (n : Int)
  | char (c : Char)
  | str (s : String)
  | none
  deriving DecidableEq, Repr

/-- The operator token types used by the evaluator (src/tokens.rs). -/
inductive TokenType where
  | plus
  | minus
  | mul
  | integerDiv
  | floatDiv
  | other
  deriving DecidableEq, Repr

/-- ARType (src/symbols.rs): Program | Procedure. -/
inductive ARType where
  | program
  | procedure
  deriving DecidableEq, Repr

/-- ActivationRecord (src/symbols.rs): name, kind, dynamic nesting level and
the name-to-value members map. -/
structure ActivationRecord where
  name : String
  type_ : ARType
  nestingLevel : Nat
  members : List (String × Value)
  deriving DecidableEq, Repr

/-- ActivationRecord::new. -/
def ActivationRecord.new (name : String) (type_ : ARType) (nestingLevel : Nat) :
    ActivationRecord :=
  ⟨name, type_, nestingLevel, []⟩

/-- ActivationRecord::set — HashMap::insert overwrites the binding. -/
def ActivationRecord.set (ar : ActivationRecord) (key : String) (value : Value) :
    ActivationRecord :=
  ⟨ar.name, ar.type_, ar.nestingLevel, (key, value) :: ar.members⟩

/-- ActivationRecord::get — HashMap::get. -/
def ActivationRecord.get (ar : ActivationRecord) (key : String) : Option Value :=
  (ar.members.find? (fun p => p.1 = key)).map (·.2)

/-- CallStack (src/symbols.rs): Vec of records; we keep the top of the stack
at the head of the list (push = cons, pop = tail, peek = head). -/
abbrev CallStack := List ActivationRecord

/-- Rust `str::to_uppercase`, restricted to the ASCII identifiers the lexer
produces (on which it agrees with Unicode uppercasing).  Written over the
character list so that it computes by kernel reduction. -/
def strToUpper (s : String) : String := String.mk (s.data.map Char.toUpper)

/-- Rust `str::to_lowercase`, restricted to ASCII identifiers likewise. -/
def strToLower (s : String) : String := String.mk (s.data.map Char.toLower)

mutual
/-- AST nodes of the current stage, as built by src/parser.rs and consumed by
src/semantic_analyzer.rs and src/interpreter.rs.  A `Var` node carries the
identifier text exactly as written in the source (the lexer does not
canonicalize identifier case), so variable-carrying constructors here hold the
raw `String`.  `procedureCall` carries the annotation slot `proc_symbol`
filled by the analyzer. -/
inductive Node where
  | num (v : Value)
  | binOp (left : Node) (op : TokenType) (right : Node)
  | unaryOp (op : TokenType) (expr : Node)
  | compound (children : List Node)
  | noOp
  | assign (leftName : String) (right : Node)
  | var (name : String)
  | programN (name : String) (block : Block)
  | blockN (block : Block)
  | varDecl (varName : String) (typeName : String)
  | procedureDecl (procName : String) (params : List (String × String)) (block : Block)
  | procedureCall (procName : String) (actualParams : List Node)
      (procSymbol : Option ProcedureSymbol)

/-- Block (src/ast.rs usage in parser.rs): declarations plus one compound. -/
inductive Block where
  | mk (declarations : List Node) (compoundStatement : Node)

/-- ProcedureSymbol (src/symbols.rs): name, formal parameters, cached body. -/
inductive ProcedureSymbol where
  | mk (name : String) (formalParams : List VarSymbol) (blockAst : Option Block)

/-- VarSymbol (src/symbols.rs): name plus its type symbol. -/
inductive VarSymbol where
  | mk (name : String) (type_ : Symbol)

/-- Symbol (src/symbols.rs): Builtin | Var | Procedure. -/
inductive Symbol where
  | builtin (name : String)
  | varS (v : VarSymbol)
  | procedure (p : ProcedureSymbol)
end

/-- Declarations of a block. -/
def Block.declarations : Block → List Node
  | .mk d _ => d

/-- Compound statement of a block. -/
def Block.compoundStatement : Block → Node
  | .mk _ c => c

/-- Name of a procedure symbol. -/
def ProcedureSymbol.name : ProcedureSymbol → String
  | .mk n _ _ => n

/-- Formal parameters of a procedure symbol. -/
def ProcedureSymbol.formalParams : ProcedureSymbol → List VarSymbol
  | .mk _ ps _ => ps

/-- Cached body of a procedure symbol. -/
def ProcedureSymbol.blockAst : ProcedureSymbol → Option Block
  | .mk _ _ b => b

/-- Name of a variable symbol. -/
def VarSymbol.name : VarSymbol → String
  | .mk n _ => n

/-- Symbol::name (src/symbols.rs). -/
def Symbol.name : Symbol → String
  | .builtin b => b
  | .varS v => v.name
  | .procedure p => p.name

/-! Execution engine (src/interpreter.rs, `impl NodeVisitor for Interpreter`).
Each distinct Rust abort site (panic or unwrap failure) gets its own error
constructor so the theorems can tell the failure modes apart. -/

/-- Runtime abort reasons of the execution engine (each corresponds to one
panic / unwrap site in src/interpreter.rs, or to the i32 arithmetic panics of
Rust itself). -/
inductive RtError where
  | kindMismatch
  | badOperator
  | unimplementedOperator
  | emptyStack
  | varMiss
  | divByZero
  | intOverflow
  | missingProcSymbol
  | missingBlock
  deriving DecidableEq, Repr

/-- Lower bound of Rust i32. -/
def i32Min : Int := -(2 ^ 31)

/-- Upper bound of Rust i32. -/
def i32Max : Int := 2 ^ 31 - 1

/-- Truncation of a rational toward zero, as Rust `f32 as i32` rounds. -/
def ratTrunc (q : ℚ) : Int := q.num.tdiv q.den

/-- The saturating Rust cast `f32 as i32`: truncate toward zero, then clamp
into the i32 range. -/
def satTrunc (q : ℚ) : Int :=
  let t := ratTrunc q
  if t < i32Min then i32Min else if i32Max < t then i32Max else t

/-- The operand coercion at the top of Interpreter::visit_bin_op
(interpreter.rs lines 63-78): an Integer is cast to f32, a Float is kept and
flips the `float` flag, anything else panics. -/
def valToFloat : Value → Except RtError (ℚ × Bool)
  | .integer n => .ok ((n : ℚ), false)
  | .float q => .ok (q, true)
  | _ => .error .kindMismatch

/-- The operator dispatch of Interpreter::visit_bin_op (interpreter.rs lines
80-87).  IntegerDiv is `(left as i32 / right as i32) as f32`; Rust i32
division panics on a zero divisor and on `i32::MIN / -1`. -/
def applyBinOp (op : TokenType) (l r : ℚ) : Except RtError ℚ :=
  match op with
  | .plus => .ok (l + r)
  | .minus => .ok (l - r)
  | .mul => .ok (l * r)
  | .integerDiv =>
      let li := satTrunc l
      let ri := satTrunc r
      if ri = 0 then .error .divByZero
      else if li = i32Min ∧ ri = -1 then .error .intOverflow
      else .ok ((li.tdiv ri : Int) : ℚ)
  | .floatDiv => .ok (l / r)
  | .other => .error .badOperator

/-- Result packing of Interpreter::visit_bin_op (interpreter.rs lines 88-91):
Float if either operand was a Float, otherwise the saturating cast back to
Integer. -/
def packBinOpResult (isFloat : Bool) (res : ℚ) : Value :=
  match isFloat with
  | true => Value.float res
  | false => Value.integer (satTrunc res)

/-- Interpreter::visit_unary_op (interpreter.rs lines 94-108): identity /
negation on either numeric kind, panic otherwise; `0 - n` on i32 overflows at
`i32::MIN`. -/
def applyUnaryOp (op : TokenType) : Value → Except RtError Value
  | .float q =>
      match op with
      | .plus => .ok (.float (0 + q))
      | .minus => .ok (.float (0 - q))
      | _ => .error .unimplementedOperator
  | .integer n =>
      match op with
      | .plus => .ok (.integer n)
      | .minus => if n = i32Min then .error .intOverflow else .ok (.integer (0 - n))
      | _ => .error .unimplementedOperator
  | _ => .error .kindMismatch

mutual
/-- Interpreter::visit (interpreter.rs): evaluates a node against the call
stack, returning the produced Value and the resulting stack, or the abort
reason.  Top of stack is the head of the list. -/
def visitN : Node → CallStack → Except RtError (Value × CallStack)
  | .num v, s => .ok (v, s)
  | .binOp l op r, s =>
      match visitN l s with
      | .error e => .error e
      | .ok (lv, s₁) =>
          match valToFloat lv with
          | .error e => .error e
          | .ok (lq, lf) =>
              match visitN r s₁ with
              | .error e => .error e
              | .ok (rv, s₂) =>
                  match valToFloat rv with
                  | .error e => .error e
                  | .ok (rq, rf) =>
                      match applyBinOp op lq rq with
                      | .error e => .error e
                      | .ok res => .ok (packBinOpResult (lf || rf) res, s₂)
  | .unaryOp op e, s =>
      match visitN e s with
      | .error err => .error err
      | .ok (v, s₁) =>
          match applyUnaryOp op v with
          | .error err => .error err
          | .ok v' => .ok (v', s₁)
  | .compound cs, s =>
      match visitList cs s with
      | .error e => .error e
      | .ok s₁ => .ok (.none, s₁)
  | .noOp, s => .ok (.none, s)
  | .assign leftName r, s =>
      match visitN r s with
      | .error e => .error e
      | .ok (v, s₁) =>
          match s₁ with
          | [] => .error .emptyStack
          | ar :: rest => .ok (.none, ar.set leftName v :: rest)
  | .var name, s =>
      match s with
      | [] => .error .emptyStack
      | ar :: _ =>
          match ar.get (strToLower name) with
          | some v => .ok (v, s)
          | Option.none => .error .varMiss
  | .programN nm blk, s =>
      match visitBlock blk (ActivationRecord.new nm .program 1 :: s) with
      | .error e => .error e
      | .ok s₁ => .ok (.none, s₁.tail)
  | .blockN blk, s =>
      match visitBlock blk s with
      | .error e => .error e
      | .ok s₁ => .ok (.none, s₁)
  | .varDecl _ _, s => .ok (.none, s)
  | .procedureDecl _ _ _, s => .ok (.none, s)
  | .procedureCall _ _ Option.none, _ => .error .missingProcSymbol
  | .procedureCall nm args (some (.mk _ fps Option.none)), s =>
      match bindArgs fps args (ActivationRecord.new nm .procedure 2) s with
      | .error e => .error e
      | .ok _ => .error .missingBlock
  | .procedureCall nm args (some (.mk _ fps (some b))), s =>
      match bindArgs fps args (ActivationRecord.new nm .procedure 2) s with
      | .error e => .error e
      | .ok (ar, s₁) =>
          match visitBlock b (ar :: s₁) with
          | .error e => .error e
          | .ok s₂ => .ok (.none, s₂.tail)
termination_by n _ => sizeOf n

/-- Interpreter::visit_block: declarations, then the compound statement. -/
def visitBlock : Block → CallStack → Except RtError CallStack
  | .mk decls comp, s =>
      match visitList decls s with
      | .error e => .error e
      | .ok s₁ =>
          match visitN comp s₁ with
          | .error e => .error e
          | .ok (_, s₂) => .ok s₂
termination_by b _ => sizeOf b

/-- Sequential evaluation of statement lists (the loops in visit_compound and
visit_block), discarding values. -/
def visitList : List Node → CallStack → Except RtError CallStack
  | [], s => .ok s
  | n :: ns, s =>
      match visitN n s with
      | .error e => .error e
      | .ok (_, s₁) => visitList ns s₁
termination_by l _ => sizeOf l

/-- The argument-binding loop of Interpreter::visit_procedure_call
(interpreter.rs lines 178-180): formals zipped with actuals, each actual
evaluated in the caller's frame and bound under the formal's raw name. -/
def bindArgs : List VarSymbol → List Node → ActivationRecord → CallStack →
    Except RtError (ActivationRecord × CallStack)
  | [], _, ar, s => .ok (ar, s)
  | _ :: _, [], ar, s => .ok (ar, s)
  | p :: ps, a :: as_, ar, s =>
      match visitN a s with
      | .error e => .error e
      | .ok (v, s₁) => bindArgs ps as_ (ar.set p.name v) s₁
termination_by _ args _ _ => sizeOf args
end

/-! Scoped symbol table (src/symbols.rs, `SymbolTable`) and the semantic
analyzer (src/semantic_analyzer.rs, `impl NodeVisitor for SemanticAnalyzer`). -/

/-- SymbolTable (src/symbols.rs): canonical-name-to-symbol map, scope level,
scope name and the optional enclosing table. -/
inductive SymbolTable where
  | mk (symbols : List (String × Symbol)) (scopeLevel : Nat) (scopeName : String)
      (enclosingScope : Option SymbolTable)

/-- Symbol map of a table. -/
def SymbolTable.symbols : SymbolTable → List (String × Symbol)
  | .mk syms _ _ _ => syms

/-- Static nesting level of a table. -/
def SymbolTable.scopeLevel : SymbolTable → Nat
  | .mk _ lvl _ _ => lvl

/-- Diagnostic name of a table. -/
def SymbolTable.scopeName : SymbolTable → String
  | .mk _ _ nm _ => nm

/-- Enclosing table, if any. -/
def SymbolTable.enclosingScope : SymbolTable → Option SymbolTable
  | .mk _ _ _ p => p

/-- SymbolTable::insert — keyed by the symbol's own name, overwriting. -/
def SymbolTable.insert : SymbolTable → Symbol → SymbolTable
  | .mk syms lvl nm p, sym => .mk ((sym.name, sym) :: syms) lvl nm p

/-- SymbolTable::new — pre-populated with the INTEGER and REAL builtins. -/
def SymbolTable.new (scopeName : String) (scopeLevel : Nat)
    (enclosingScope : Option SymbolTable) : SymbolTable :=
  ((SymbolTable.mk [] scopeLevel scopeName enclosingScope).insert
      (.builtin "INTEGER")).insert (.builtin "REAL")

/-- SymbolTable::lookup — the current table first, then (unless
current_scope_only) the enclosing chain. -/
def SymbolTable.lookup : SymbolTable → String → Bool → Option Symbol
  | .mk syms _ _ parent, name, currentOnly =>
      match (syms.find? (fun p => p.1 = name)).map (·.2) with
      | some sym => some sym
      | Option.none =>
          if currentOnly then Option.none
          else
            match parent with
            | Option.none => Option.none
            | some p => p.lookup name false

/-- The mutation `scope.insert(sym)` applied to the enclosing scope stored
inside the current one (semantic_analyzer.rs lines 149-151). -/
def SymbolTable.insertIntoEnclosing : SymbolTable → Symbol → SymbolTable
  | .mk syms lvl nm parent, sym => .mk syms lvl nm (parent.map (·.insert sym))

/-- Fatal analysis aborts: the named semantic error kinds raised through
`SemanticAnalyzer::error`, plus the bare unwrap/panic sites of the
analyzer. -/
inductive SemErr where
  | idNotFound (name : String)
  | duplicateId (name : String)
  | wrongParamsNum (name : String)
  | typeNotFound (name : String)
  | notAProcedure
  | scopeMissing
  deriving DecidableEq, Repr

/-- The formal-parameter loop of SemanticAnalyzer::visit_procedure_decl
(semantic_analyzer.rs lines 136-147): resolve each parameter's type, insert
the Variable symbol into the (new child) scope, and collect it into the
procedure symbol's formal-parameter list. -/
def processParams : List (String × String) → SymbolTable → List VarSymbol →
    Except SemErr (SymbolTable × List VarSymbol)
  | [], st, fps => .ok (st, fps)
  | (vName, tyName) :: rest, st, fps =>
      match st.lookup (strToUpper tyName) false with
      | Option.none => .error (.typeNotFound tyName)
      | some tySym =>
          let vs := VarSymbol.mk vName tySym
          processParams rest (st.insert (.varS vs)) (fps ++ [vs])

mutual
/-- SemanticAnalyzer::visit (semantic_analyzer.rs): checks a node against the
current scope and returns the (possibly call-annotated) node together with
the scope as left by the traversal, or the fatal error. -/
def visitA : Node → SymbolTable → Except SemErr (Node × SymbolTable)
  | .num v, st => .ok (.num v, st)
  | .binOp l op r, st =>
      match visitA l st with
      | .error e => .error e
      | .ok (l', st₁) =>
          match visitA r st₁ with
          | .error e => .error e
          | .ok (r', st₂) => .ok (.binOp l' op r', st₂)
  | .unaryOp op e, st => .ok (.unaryOp op e, st)
  | .compound cs, st =>
      match visitAList cs st with
      | .error e => .error e
      | .ok (cs', st₁) => .ok (.compound cs', st₁)
  | .noOp, st => .ok (.noOp, st)
  | .assign leftName r, st =>
      match visitA r st with
      | .error e => .error e
      | .ok (r', st₁) =>
          match st₁.lookup leftName false with
          | Option.none => .error (.idNotFound leftName)
          | some _ => .ok (.assign leftName r', st₁)
  | .var name, st =>
      match st.lookup name false with
      | Option.none => .error (.idNotFound name)
      | some _ => .ok (.var name, st)
  | .programN nm blk, _ =>
      match visitABlock blk (SymbolTable.new "global" 1 Option.none) with
      | .error e => .error e
      | .ok (blk', st₁) =>
          .ok (.programN nm blk',
            st₁.enclosingScope.getD (SymbolTable.new "" 0 Option.none))
  | .blockN blk, st =>
      match visitABlock blk st with
      | .error e => .error e
      | .ok (blk', st₁) => .ok (.blockN blk', st₁)
  | .varDecl vName tyName, st =>
      if (st.lookup vName true).isSome then .error (.duplicateId vName)
      else
        match st.lookup (strToUpper tyName) false with
        | Option.none => .error (.typeNotFound tyName)
        | some tySym =>
            .ok (.varDecl vName tyName, st.insert (.varS (.mk vName tySym)))
  | .procedureDecl pName params blk, st =>
      match processParams params (SymbolTable.new pName (st.scopeLevel + 1) (some st)) [] with
      | .error e => .error e
      | .ok (child₁, fps) =>
          match visitABlock blk
              (child₁.insertIntoEnclosing (.procedure (.mk pName fps (some blk)))) with
          | .error e => .error e
          | .ok (blk', child₂) =>
              match child₂.enclosingScope with
              | Option.none => .error .scopeMissing
              | some parent => .ok (.procedureDecl pName params blk', parent)
  | .procedureCall pName args _psym, st =>
      match st.lookup pName true with
      | some (.procedure proc) =>
          if proc.formalParams.length ≠ args.length then .error (.wrongParamsNum pName)
          else
            match visitAList args st with
            | .error e => .error e
            | .ok (args', st₁) =>
                match st₁.lookup pName false with
                | some (.procedure s) => .ok (.procedureCall pName args' (some s), st₁)
                | _ => .error .notAProcedure
      | _ => .error (.idNotFound pName)
termination_by n _ => sizeOf n

/-- SemanticAnalyzer::visit_block: declarations, then the compound. -/
def visitABlock : Block → SymbolTable → Except SemErr (Block × SymbolTable)
  | .mk decls comp, st =>
      match visitAList decls st with
      | .error e => .error e
      | .ok (decls', st₁) =>
          match visitA comp st₁ with
          | .error e => .error e
          | .ok (comp', st₂) => .ok (.mk decls' comp', st₂)
termination_by b _ => sizeOf b

/-- Sequential analysis of node lists (declaration lists, compound children
and actual-argument lists). -/
def visitAList : List Node → SymbolTable → Except SemErr (List Node × SymbolTable)
  | [], st => .ok ([], st)
  | n :: ns, st =>
      match visitA n st with
      | .error e => .error e
      | .ok (n', st₁) =>
          match visitAList ns st₁ with
          | .error e => .error e
          | .ok (ns', st₂) => .ok (n' :: ns', st₂)
termination_by l _ => sizeOf l
end

/-- The pre-execution pass: a fresh analyzer (whose initial scope is the
global table, SemanticAnalyzer::new) visits the tree and yields the annotated
tree. -/
def analyzeProgram (n : Node) : Except SemErr Node :=
  (visitA n (SymbolTable.new "global" 1 Option.none)).map (·.1)

/-- Execution from an empty call stack (Interpreter::new followed by visit). -/
def runProgram (n : Node) : Except RtError (Value × CallStack) :=
  visitN n []

/-! Fuel-indexed computation rules.  The evaluator and the analyzer above are
defined by well-founded recursion, which the kernel does not reduce, so
concrete runs cannot be established by `rfl` on them directly.  The following
functions repeat the same case analyses verbatim, but recurse structurally on
an explicit fuel counter and answer `Option.none` when the fuel runs out;
`fvisit_sound` and `fvisitA_sound` below prove that any fuelled answer is the
answer of the corresponding function above.  Concrete executions are then
evaluated by kernel reduction of the fuelled functions. -/

mutual
/-- Fuelled Interpreter::visit. -/
def fvisitN : Nat → Node → CallStack → Option (Except RtError (Value × CallStack))
  | 0, _, _ => Option.none
  | fuel + 1, node, s =>
    match node with
    | .num v => some (.ok (v, s))
    | .binOp l op r =>
        match fvisitN fuel l s with
        | Option.none => Option.none
        | some (.error e) => some (.error e)
        | some (.ok (lv, s₁)) =>
            match valToFloat lv with
            | .error e => some (.error e)
            | .ok (lq, lf) =>
                match fvisitN fuel r s₁ with
                | Option.none => Option.none
                | some (.error e) => some (.error e)
                | some (.ok (rv, s₂)) =>
                    match valToFloat rv with
                    | .error e => some (.error e)
                    | .ok (rq, rf) =>
                        match applyBinOp op lq rq with
                        | .error e => some (.error e)
                        | .ok res => some (.ok (packBinOpResult (lf || rf) res, s₂))
    | .unaryOp op e =>
        match fvisitN fuel e s with
        | Option.none => Option.none
        | some (.error err) => some (.error err)
        | some (.ok (v, s₁)) =>
            match applyUnaryOp op v with
            | .error err => some (.error err)
            | .ok v' => some (.ok (v', s₁))
    | .compound cs =>
        match fvisitList fuel cs s with
        | Option.none => Option.none
        | some (.error e) => some (.error e)
        | some (.ok s₁) => some (.ok (.none, s₁))
    | .noOp => some (.ok (.none, s))
    | .assign leftName r =>
        match fvisitN fuel r s with
        | Option.none => Option.none
        | some (.error e) => some (.error e)
        | some (.ok (v, s₁)) =>
            match s₁ with
            | [] => some (.error .emptyStack)
            | ar :: rest => some (.ok (.none, ar.set leftName v :: rest))
    | .var name =>
        match s with
        | [] => some (.error .emptyStack)
        | ar :: _ =>
            match ar.get (strToLower name) with
            | some v => some (.ok (v, s))
            | Option.none => some (.error .varMiss)
    | .programN nm blk =>
        match fvisitBlock fuel blk (ActivationRecord.new nm .program 1 :: s) with
        | Option.none => Option.none
        | some (.error e) => some (.error e)
        | some (.ok s₁) => some (.ok (.none, s₁.tail))
    | .blockN blk =>
        match fvisitBlock fuel blk s with
        | Option.none => Option.none
        | some (.error e) => some (.error e)
        | some (.ok s₁) => some (.ok (.none, s₁))
    | .varDecl _ _ => some (.ok (.none, s))
    | .procedureDecl _ _ _ => some (.ok (.none, s))
    | .procedureCall _ _ Option.none => some (.error .missingProcSymbol)
    | .procedureCall nm args (some (.mk _ fps Option.none)) =>
        match fbindArgs fuel fps args (ActivationRecord.new nm .procedure 2) s with
        | Option.none => Option.none
        | some (.error e) => some (.error e)
        | some (.ok _) => some (.error .missingBlock)
    | .procedureCall nm args (some (.mk _ fps (some b))) =>
        match fbindArgs fuel fps args (ActivationRecord.new nm .procedure 2) s with
        | Option.none => Option.none
        | some (.error e) => some (.error e)
        | some (.ok (ar, s₁)) =>
            match fvisitBlock fuel b (ar :: s₁) with
            | Option.none => Option.none
            | some (.error e) => some (.error e)
            | some (.ok s₂) => some (.ok (.none, s₂.tail))

/-- Fuelled Interpreter::visit_block. -/
def fvisitBlock : Nat → Block → CallStack → Option (Except RtError CallStack)
  | 0, _, _ => Option.none
  | fuel + 1, .mk decls comp, s =>
      match fvisitList fuel decls s with
      | Option.none => Option.none
      | some (.error e) => some (.error e)
      | some (.ok s₁) =>
          match fvisitN fuel comp s₁ with
          | Option.none => Option.none
          | some (.error e) => some (.error e)
          | some (.ok (_, s₂)) => some (.ok s₂)

/-- Fuelled statement-list evaluation. -/
def fvisitList : Nat → List Node → CallStack → Option (Except RtError CallStack)
  | 0, _, _ => Option.none
  | _ + 1, [], s => some (.ok s)
  | fuel + 1, n :: ns, s =>
      match fvisitN fuel n s with
      | Option.none => Option.none
      | some (.error e) => some (.error e)
      | some (.ok (_, s₁)) => fvisitList fuel ns s₁

/-- Fuelled argument binding of Interpreter::visit_procedure_call. -/
def fbindArgs : Nat → List VarSymbol → List Node → ActivationRecord → CallStack →
    Option (Except RtError (ActivationRecord × CallStack))
  | 0, _, _, _, _ => Option.none
  | _ + 1, [], _, ar, s => some (.ok (ar, s))
  | _ + 1, _ :: _, [], ar, s => some (.ok (ar, s))
  | fuel + 1, p :: ps, a :: as_, ar, s =>
      match fvisitN fuel a s with
      | Option.none => Option.none
      | some (.error e) => some (.error e)
      | some (.ok (v, s₁)) => fbindArgs fuel ps as_ (ar.set p.name v) s₁
end

mutual
/-- Fuelled SemanticAnalyzer::visit. -/
def fvisitA : Nat → Node → SymbolTable → Option (Except SemErr (Node × SymbolTable))
  | 0, _, _ => Option.none
  | fuel + 1, node, st =>
    match node with
    | .num v => some (.ok (.num v, st))
    | .binOp l op r =>
        match fvisitA fuel l st with
        | Option.none => Option.none
        | some (.error e) => some (.error e)
        | some (.ok (l', st₁)) =>
            match fvisitA fuel r st₁ with
            | Option.none => Option.none
            | some (.error e) => some (.error e)
            | some (.ok (r', st₂)) => some (.ok (.binOp l' op r', st₂))
    | .unaryOp op e => some (.ok (.unaryOp op e, st))
    | .compound cs =>
        match fvisitAList fuel cs st with
        | Option.none => Option.none
        | some (.error e) => some (.error e)
        | some (.ok (cs', st₁)) => some (.ok (.compound cs', st₁))
    | .noOp => some (.ok (.noOp, st))
    | .assign leftName r =>
        match fvisitA fuel r st with
        | Option.none => Option.none
        | some (.error e) => some (.error e)
        | some (.ok (r', st₁)) =>
            match st₁.lookup leftName false with
            | Option.none => some (.error (.idNotFound leftName))
            | some _ => some (.ok (.assign leftName r', st₁))
    | .var name =>
        match st.lookup name false with
        | Option.none => some (.error (.idNotFound name))
        | some _ => some (.ok (.var name, st))
    | .programN nm blk =>
        match fvisitABlock fuel blk (SymbolTable.new "global" 1 Option.none) with
        | Option.none => Option.none
        | some (.error e) => some (.error e)
        | some (.ok (blk', st₁)) =>
            some (.ok (.programN nm blk',
              st₁.enclosingScope.getD (SymbolTable.new "" 0 Option.none)))
    | .blockN blk =>
        match fvisitABlock fuel blk st with
        | Option.none => Option.none
        | some (.error e) => some (.error e)
        | some (.ok (blk', st₁)) => some (.ok (.blockN blk', st₁))
    | .varDecl vName tyName =>
        if (st.lookup vName true).isSome then some (.error (.duplicateId vName))
        else
          match st.lookup (strToUpper tyName) false with
          | Option.none => some (.error (.typeNotFound tyName))
          | some tySym =>
              some (.ok (.varDecl vName tyName, st.insert (.varS (.mk vName tySym))))
    | .procedureDecl pName params blk =>
        match processParams params (SymbolTable.new pName (st.scopeLevel + 1) (some st)) [] with
        | .error e => some (.error e)
        | .ok (child₁, fps) =>
            match fvisitABlock fuel blk
                (child₁.insertIntoEnclosing (.procedure (.mk pName fps (some blk)))) with
            | Option.none => Option.none
            | some (.error e) => some (.error e)
            | some (.ok (blk', child₂)) =>
                match child₂.enclosingScope with
                | Option.none => some (.error .scopeMissing)
                | some parent => some (.ok (.procedureDecl pName params blk', parent))
    | .procedureCall pName args _psym =>
        match st.lookup pName true with
        | some (.procedure proc) =>
            if proc.formalParams.length ≠ args.length then
              some (.error (.wrongParamsNum pName))
            else
              match fvisitAList fuel args st with
              | Option.none => Option.none
              | some (.error e) => some (.error e)
              | some (.ok (args', st₁)) =>
                  match st₁.lookup pName false with
                  | some (.procedure sym) =>
                      some (.ok (.procedureCall pName args' (some sym), st₁))
                  | _ => some (.error .notAProcedure)
        | _ => some (.error (.idNotFound pName))

/-- Fuelled SemanticAnalyzer::visit_block. -/
def fvisitABlock : Nat → Block → SymbolTable → Option (Except SemErr (Block × SymbolTable))
  | 0, _, _ => Option.none
  | fuel + 1, .mk decls comp, st =>
      match fvisitAList fuel decls st with
      | Option.none => Option.none
      | some (.error e) => some (.error e)
      | some (.ok (decls', st₁)) =>
          match fvisitA fuel comp st₁ with
          | Option.none => Option.none
          | some (.error e) => some (.error e)
          | some (.ok (comp', st₂)) => some (.ok (.mk decls' comp', st₂))

/-- Fuelled node-list analysis. -/
def fvisitAList : Nat → List Node → SymbolTable →
    Option (Except SemErr (List Node × SymbolTable))
  | 0, _, _ => Option.none
  | _ + 1, [], st => some (.ok ([], st))
  | fuel + 1, n :: ns, st =>
      match fvisitA fuel n st with
      | Option.none => Option.none
      | some (.error e) => some (.error e)
      | some (.ok (n', st₁)) =>
          match fvisitAList fuel ns st₁ with
          | Option.none => Option.none
          | some (.error e) => some (.error e)
          | some (.ok (ns', st₂)) => some (.ok (n' :: ns', st₂))
end

/-! Concrete programs used as evidence below.  Each is the AST the parser
produces for the Pascal source quoted in its doc comment. -/

/-- AST of `PROGRAM Test; VAR A : INTEGER; BEGIN A := 1; A := A + 1 END.` —
written with an upper-case identifier exactly as the source spells it. -/
def caseProgram : Node :=
  .programN "Test" (.mk [.varDecl "A" "INTEGER"]
    (.compound [.assign "A" (.num (.integer 1)),
                .assign "A" (.binOp (.var "A") .plus (.num (.integer 1)))]))

/-- AST of `PROGRAM Main; PROCEDURE P; BEGIN P END; BEGIN END.` — a
procedure whose body contains a recursive call to itself. -/
def recProgram : Node :=
  .programN "Main" (.mk
    [.procedureDecl "P" [] (.mk [] (.compound [.procedureCall "P" [] Option.none]))]
    (.compound []))

/-- AST of the empty program `PROGRAM T; BEGIN END.`. -/
def emptyProgram : Node := .programN "T" (.mk [] (.compound []))

/-- AST of `PROGRAM U; VAR x : INTEGER; BEGIN x := -b END.` — the variable
`b` is never declared and appears only under a unary minus. -/
def unaryProgram : Node :=
  .programN "U" (.mk [.varDecl "x" "INTEGER"]
    (.compound [.assign "x" (.unaryOp .minus (.var "b"))]))

/-- AST of `PROGRAM D; VAR A : INTEGER; a : INTEGER; BEGIN END.` — the same
identifier declared twice in one scope under two casings. -/
def dupCaseProgram : Node :=
  .programN "D" (.mk [.varDecl "A" "INTEGER", .varDecl "a" "INTEGER"] (.compound []))

/-- The activation record that holds the binding written by `A := 5`. -/
def c6Record : ActivationRecord := ⟨"prog", .program, 1, [("A", .integer 5)]⟩

def c8Outer : ActivationRecord := ⟨"Test", .program, 1, [("x", .integer 9)]⟩
def c8Inner : ActivationRecord := ⟨"p", .procedure, 2, [("x", .integer 0)]⟩
def c7Sym : ProcedureSymbol := .mk "p" [] (some (.mk [] (.compound [])))
def c9GlobalWithX : SymbolTable :=
  (SymbolTable.new "global" 1 Option.none).insert (.varS (.mk "x" (.builtin "INTEGER")))
def c9Child : SymbolTable := SymbolTable.new "P" 2 (some c9GlobalWithX)

/-! Evaluation lemmas for the case-folding functions on the concrete
identifier literals appearing below (proved by kernel computation and marked
simp so the concrete program evaluations can use them). -/

/-- strToUpper fixes the spelling INTEGER. -/
@[simp] theorem strToUpper_INTEGER : strToUpper "INTEGER" = "INTEGER" := by decide

/-- strToUpper fixes the spelling REAL. -/
@[simp] theorem strToUpper_REAL : strToUpper "REAL" = "REAL" := by decide

/-- strToLower sends the spelling A to a. -/
@[simp] theorem strToLower_A : strToLower "A" = "a" := by decide

/-- strToLower fixes the spelling a. -/
@[simp] theorem strToLower_a : strToLower "a" = "a" := by decide

/-- strToLower fixes the spelling b. -/
@[simp] theorem strToLower_b : strToLower "b" = "b" := by decide

/-- strToLower fixes the spelling x. -/
@[simp] theorem strToLower_x : strToLower "x" = "x" := by decide

/-- strToLower fixes the spelling y. -/
@[simp] theorem strToLower_y : strToLower "y" = "y" := by decide

/-! Shared structural lemmas about the execution engine. -/

/-- Every successful visit leaves the call stack at its entry depth; stated
jointly for the four mutually recursive evaluation functions. -/
theorem stack_lengths :
    (∀ (n : Node) (s : CallStack), ∀ r, visitN n s = .ok r → r.2.length = s.length) ∧
    (∀ (ps : List VarSymbol) (args : List Node) (ar : ActivationRecord) (s : CallStack),
        ∀ r, bindArgs ps args ar s = .ok r → r.2.length = s.length) ∧
    (∀ (b : Block) (s : CallStack), ∀ r, visitBlock b s = .ok r → r.length = s.length) ∧
    (∀ (l : List Node) (s : CallStack), ∀ r, visitList l s = .ok r → r.length = s.length) := by
  apply visitN.mutual_induct
    (fun n s => ∀ r, visitN n s = .ok r → r.2.length = s.length)
    (fun ps args ar s => ∀ r, bindArgs ps args ar s = .ok r → r.2.length = s.length)
    (fun b s => ∀ r, visitBlock b s = .ok r → r.length = s.length)
    (fun l s => ∀ r, visitList l s = .ok r → r.length = s.length)
  all_goals intros
  all_goals simp_all only [visitN, visitBlock, visitList, bindArgs,
    List.length_cons, List.length_tail, Except.ok.injEq, Prod.mk.injEq, forall_eq']
  all_goals try (cases ‹Except.error _ = Except.ok _›)
  all_goals try (rename_i hEq; subst hEq)
  all_goals simp_all only [List.length_cons, List.length_tail, forall_eq', Prod.mk.injEq]
  all_goals try omega

/-- Depth preservation, specialised to visitN. -/
theorem visitN_ok_length {n : Node} {s : CallStack} {v : Value} {s' : CallStack}
    (h : visitN n s = .ok (v, s')) : s'.length = s.length :=
  stack_lengths.1 n s (v, s') h

/-- Depth preservation, specialised to bindArgs. -/
theorem bindArgs_ok_length {ps : List VarSymbol} {args : List Node}
    {ar ar' : ActivationRecord} {s s' : CallStack}
    (h : bindArgs ps args ar s = .ok (ar', s')) : s'.length = s.length :=
  stack_lengths.2.1 ps args ar s (ar', s') h

/-- Depth preservation, specialised to visitBlock. -/
theorem visitBlock_ok_length {b : Block} {s s' : CallStack}
    (h : visitBlock b s = .ok s') : s'.length = s.length :=
  stack_lengths.2.2.1 b s s' h

/-- Every answer of the fuelled evaluator agrees with the evaluator, for all
four mutually recursive evaluation functions; proved by induction on the
fuel. -/
theorem fvisit_sound : ∀ fuel : Nat,
    (∀ (n : Node) (s : CallStack) (r : Except RtError (Value × CallStack)),
        fvisitN fuel n s = some r → visitN n s = r) ∧
    (∀ (b : Block) (s : CallStack) (r : Except RtError CallStack),
        fvisitBlock fuel b s = some r → visitBlock b s = r) ∧
    (∀ (l : List Node) (s : CallStack) (r : Except RtError CallStack),
        fvisitList fuel l s = some r → visitList l s = r) ∧
    (∀ (ps : List VarSymbol) (args : List Node) (ar : ActivationRecord) (s : CallStack)
        (r : Except RtError (ActivationRecord × CallStack)),
        fbindArgs fuel ps args ar s = some r → bindArgs ps args ar s = r) := by
  intro fuel
  induction fuel with
  | zero =>
      refine ⟨?_, ?_, ?_, ?_⟩ <;> intros <;>
        simp_all [fvisitN, fvisitBlock, fvisitList, fbindArgs]
  | succ fuel ih =>
      obtain ⟨ihN, ihB, ihL, ihA⟩ := ih
      refine ⟨?_, ?_, ?_, ?_⟩
      · intro n s r h
        cases n with
        | num v =>
            simp only [fvisitN, Option.some.injEq] at h
            simp [visitN, ← h]
        | noOp =>
            simp only [fvisitN, Option.some.injEq] at h
            simp [visitN, ← h]
        | varDecl a b =>
            simp only [fvisitN, Option.some.injEq] at h
            simp [visitN, ← h]
        | procedureDecl a b c =>
            simp only [fvisitN, Option.some.injEq] at h
            simp [visitN, ← h]
        | var name =>
            cases s with
            | nil => simp [fvisitN] at h; simp [visitN, ← h]
            | cons ar rest =>
                cases hg : ar.get (strToLower name) with
                | none => simp [fvisitN, hg] at h; simp [visitN, hg, ← h]
                | some v => simp [fvisitN, hg] at h; simp [visitN, hg, ← h]
        | binOp l op rr =>
            cases hl : fvisitN fuel l s with
            | none => simp [fvisitN, hl] at h
            | some x =>
                have hL := ihN l s x hl
                cases x with
                | error e => simp [fvisitN, hl] at h; simp [visitN, hL, ← h]
                | ok p =>
                    obtain ⟨lv, s₁⟩ := p
                    cases hvf : valToFloat lv with
                    | error e =>
                        simp [fvisitN, hl, hvf] at h; simp [visitN, hL, hvf, ← h]
                    | ok q =>
                        obtain ⟨lq, lf⟩ := q
                        cases hr : fvisitN fuel rr s₁ with
                        | none => simp [fvisitN, hl, hvf, hr] at h
                        | some y =>
                            have hR := ihN rr s₁ y hr
                            cases y with
                            | error e =>
                                simp [fvisitN, hl, hvf, hr] at h
                                simp [visitN, hL, hvf, hR, ← h]
                            | ok p2 =>
                                obtain ⟨rv, s₂⟩ := p2
                                cases hvf2 : valToFloat rv with
                                | error e =>
                                    simp [fvisitN, hl, hvf, hr, hvf2] at h
                                    simp [visitN, hL, hvf, hR, hvf2, ← h]
                                | ok q2 =>
                                    obtain ⟨rq, rf⟩ := q2
                                    cases hab : applyBinOp op lq rq with
                                    | error e =>
                                        simp [fvisitN, hl, hvf, hr, hvf2, hab] at h
                                        simp [visitN, hL, hvf, hR, hvf2, hab, ← h]
                                    | ok res =>
                                        simp [fvisitN, hl, hvf, hr, hvf2, hab] at h
                                        simp [visitN, hL, hvf, hR, hvf2, hab, ← h]
        | unaryOp op e =>
            cases he : fvisitN fuel e s with
            | none => simp [fvisitN, he] at h
            | some x =>
                have hE := ihN e s x he
                cases x with
                | error err => simp [fvisitN, he] at h; simp [visitN, hE, ← h]
                | ok p =>
                    obtain ⟨v, s₁⟩ := p
                    cases hu : applyUnaryOp op v with
                    | error err =>
                        simp [fvisitN, he, hu] at h; simp [visitN, hE, hu, ← h]
                    | ok v' =>
                        simp [fvisitN, he, hu] at h; simp [visitN, hE, hu, ← h]
        | compound cs =>
            cases hc : fvisitList fuel cs s with
            | none => simp [fvisitN, hc] at h
            | some x =>
                have hC := ihL cs s x hc
                cases x with
                | error e => simp [fvisitN, hc] at h; simp [visitN, hC, ← h]
                | ok s₁ => simp [fvisitN, hc] at h; simp [visitN, hC, ← h]
        | assign lname rr =>
            cases hr : fvisitN fuel rr s with
            | none => simp [fvisitN, hr] at h
            | some x =>
                have hR := ihN rr s x hr
                cases x with
                | error e => simp [fvisitN, hr] at h; simp [visitN, hR, ← h]
                | ok p =>
                    obtain ⟨v, s₁⟩ := p
                    cases s₁ with
                    | nil => simp [fvisitN, hr] at h; simp [visitN, hR, ← h]
                    | cons ar rest =>
                        simp [fvisitN, hr] at h; simp [visitN, hR, ← h]
        | programN nm blk =>
            cases hb : fvisitBlock fuel blk (ActivationRecord.new nm .program 1 :: s) with
            | none => simp [fvisitN, hb] at h
            | some x =>
                have hB := ihB blk (ActivationRecord.new nm .program 1 :: s) x hb
                cases x with
                | error e => simp [fvisitN, hb] at h; simp [visitN, hB, ← h]
                | ok s₁ => simp [fvisitN, hb] at h; simp [visitN, hB, ← h]
        | blockN blk =>
            cases hb : fvisitBlock fuel blk s with
            | none => simp [fvisitN, hb] at h
            | some x =>
                have hB := ihB blk s x hb
                cases x with
                | error e => simp [fvisitN, hb] at h; simp [visitN, hB, ← h]
                | ok s₁ => simp [fvisitN, hb] at h; simp [visitN, hB, ← h]
        | procedureCall nm args psym =>
            cases psym with
            | none => simp [fvisitN] at h; simp [visitN, ← h]
            | some sym =>
                obtain ⟨pn, fps, bAst⟩ := sym
                cases ha : fbindArgs fuel fps args (ActivationRecord.new nm .procedure 2) s with
                | none => cases bAst <;> simp [fvisitN, ha] at h
                | some x =>
                    have hA := ihA fps args (ActivationRecord.new nm .procedure 2) s x ha
                    cases x with
                    | error e =>
                        cases bAst <;> simp [fvisitN, ha] at h <;> simp [visitN, hA, ← h]
                    | ok p =>
                        obtain ⟨ar, s₁⟩ := p
                        cases bAst with
                        | none => simp [fvisitN, ha] at h; simp [visitN, hA, ← h]
                        | some b =>
                            cases hb : fvisitBlock fuel b (ar :: s₁) with
                            | none => simp [fvisitN, ha, hb] at h
                            | some y =>
                                have hB := ihB b (ar :: s₁) y hb
                                cases y with
                                | error e =>
                                    simp [fvisitN, ha, hb] at h
                                    simp [visitN, hA, hB, ← h]
                                | ok s₂ =>
                                    simp [fvisitN, ha, hb] at h
                                    simp [visitN, hA, hB, ← h]
      · intro b s r h
        obtain ⟨decls, comp⟩ := b
        cases hd : fvisitList fuel decls s with
        | none => simp [fvisitBlock, hd] at h
        | some x =>
            have hD := ihL decls s x hd
            cases x with
            | error e => simp [fvisitBlock, hd] at h; simp [visitBlock, hD, ← h]
            | ok s₁ =>
                cases hc : fvisitN fuel comp s₁ with
                | none => simp [fvisitBlock, hd, hc] at h
                | some y =>
                    have hC := ihN comp s₁ y hc
                    cases y with
                    | error e =>
                        simp [fvisitBlock, hd, hc] at h; simp [visitBlock, hD, hC, ← h]
                    | ok p =>
                        obtain ⟨v, s₂⟩ := p
                        simp [fvisitBlock, hd, hc] at h; simp [visitBlock, hD, hC, ← h]
      · intro l s r h
        cases l with
        | nil => simp [fvisitList, Option.some.injEq] at h; simp [visitList, ← h]
        | cons n ns =>
            cases hn : fvisitN fuel n s with
            | none => simp [fvisitList, hn] at h
            | some x =>
                have hN := ihN n s x hn
                cases x with
                | error e => simp [fvisitList, hn] at h; simp [visitList, hN, ← h]
                | ok p =>
                    obtain ⟨v, s₁⟩ := p
                    cases hrest : fvisitList fuel ns s₁ with
                    | none => simp [fvisitList, hn, hrest] at h
                    | some y =>
                        have hRest := ihL ns s₁ y hrest
                        simp [fvisitList, hn, hrest] at h
                        simp [visitList, hN, hRest, ← h]
      · intro ps args ar s r h
        cases ps with
        | nil => simp [fbindArgs, Option.some.injEq] at h; simp [bindArgs, ← h]
        | cons p ps' =>
            cases args with
            | nil => simp [fbindArgs, Option.some.injEq] at h; simp [bindArgs, ← h]
            | cons a as_ =>
                cases hv : fvisitN fuel a s with
                | none => simp [fbindArgs, hv] at h
                | some x =>
                    have hV := ihN a s x hv
                    cases x with
                    | error e => simp [fbindArgs, hv] at h; simp [bindArgs, hV, ← h]
                    | ok q =>
                        obtain ⟨v, s₁⟩ := q
                        cases hrest : fbindArgs fuel ps' as_ (ar.set p.name v) s₁ with
                        | none => simp [fbindArgs, hv, hrest] at h
                        | some y =>
                            have hRest := ihA ps' as_ (ar.set p.name v) s₁ y hrest
                            simp [fbindArgs, hv, hrest] at h
                            simp [bindArgs, hV, hRest, ← h]

/-- Every answer of the fuelled analyzer agrees with the analyzer, for the
three mutually recursive analysis functions; proved by induction on the
fuel. -/
theorem fvisitA_sound : ∀ fuel : Nat,
    (∀ (n : Node) (st : SymbolTable) (r : Except SemErr (Node × SymbolTable)),
        fvisitA fuel n st = some r → visitA n st = r) ∧
    (∀ (b : Block) (st : SymbolTable) (r : Except SemErr (Block × SymbolTable)),
        fvisitABlock fuel b st = some r → visitABlock b st = r) ∧
    (∀ (l : List Node) (st : SymbolTable) (r : Except SemErr (List Node × SymbolTable)),
        fvisitAList fuel l st = some r → visitAList l st = r) := by
  intro fuel
  induction fuel with
  | zero =>
      refine ⟨?_, ?_, ?_⟩ <;> intros <;>
        simp_all [fvisitA, fvisitABlock, fvisitAList]
  | succ fuel ih =>
      obtain ⟨ihN, ihB, ihL⟩ := ih
      refine ⟨?_, ?_, ?_⟩
      · intro n st r h
        cases n with
        | num v =>
            simp only [fvisitA, Option.some.injEq] at h
            simp [visitA, ← h]
        | noOp =>
            simp only [fvisitA, Option.some.injEq] at h
            simp [visitA, ← h]
        | unaryOp op e =>
            simp only [fvisitA, Option.some.injEq] at h
            simp [visitA, ← h]
        | var name =>
            cases hl : st.lookup name false with
            | none => simp [fvisitA, hl] at h; simp [visitA, hl, ← h]
            | some sym => simp [fvisitA, hl] at h; simp [visitA, hl, ← h]
        | varDecl vName tyName =>
            cases hdup : (st.lookup vName true).isSome with
            | true => simp [fvisitA, hdup] at h; simp [visitA, hdup, ← h]
            | false =>
                cases hty : st.lookup (strToUpper tyName) false with
                | none =>
                    simp [fvisitA, hdup, hty] at h; simp [visitA, hdup, hty, ← h]
                | some tySym =>
                    simp [fvisitA, hdup, hty] at h; simp [visitA, hdup, hty, ← h]
        | binOp l op rr =>
            cases hl : fvisitA fuel l st with
            | none => simp [fvisitA, hl] at h
            | some x =>
                have hL := ihN l st x hl
                cases x with
                | error e => simp [fvisitA, hl] at h; simp [visitA, hL, ← h]
                | ok p =>
                    obtain ⟨l', st₁⟩ := p
                    cases hr : fvisitA fuel rr st₁ with
                    | none => simp [fvisitA, hl, hr] at h
                    | some y =>
                        have hR := ihN rr st₁ y hr
                        cases y with
                        | error e =>
                            simp [fvisitA, hl, hr] at h; simp [visitA, hL, hR, ← h]
                        | ok q =>
                            obtain ⟨r', st₂⟩ := q
                            simp [fvisitA, hl, hr] at h; simp [visitA, hL, hR, ← h]
        | compound cs =>
            cases hc : fvisitAList fuel cs st with
            | none => simp [fvisitA, hc] at h
            | some x =>
                have hC := ihL cs st x hc
                cases x with
                | error e => simp [fvisitA, hc] at h; simp [visitA, hC, ← h]
                | ok p =>
                    obtain ⟨cs', st₁⟩ := p
                    simp [fvisitA, hc] at h; simp [visitA, hC, ← h]
        | assign lname rr =>
            cases hr : fvisitA fuel rr st with
            | none => simp [fvisitA, hr] at h
            | some x =>
                have hR := ihN rr st x hr
                cases x with
                | error e => simp [fvisitA, hr] at h; simp [visitA, hR, ← h]
                | ok p =>
                    obtain ⟨r', st₁⟩ := p
                    cases hl : st₁.lookup lname false with
                    | none => simp [fvisitA, hr, hl] at h; simp [visitA, hR, hl, ← h]
                    | some sym => simp [fvisitA, hr, hl] at h; simp [visitA, hR, hl, ← h]
        | programN nm blk =>
            cases hb : fvisitABlock fuel blk (SymbolTable.new "global" 1 Option.none) with
            | none => simp [fvisitA, hb] at h
            | some x =>
                have hB := ihB blk (SymbolTable.new "global" 1 Option.none) x hb
                cases x with
                | error e => simp [fvisitA, hb] at h; simp [visitA, hB, ← h]
                | ok p =>
                    obtain ⟨blk', st₁⟩ := p
                    simp [fvisitA, hb] at h; simp [visitA, hB, ← h]
        | blockN blk =>
            cases hb : fvisitABlock fuel blk st with
            | none => simp [fvisitA, hb] at h
            | some x =>
                have hB := ihB blk st x hb
                cases x with
                | error e => simp [fvisitA, hb] at h; simp [visitA, hB, ← h]
                | ok p =>
                    obtain ⟨blk', st₁⟩ := p
                    simp [fvisitA, hb] at h; simp [visitA, hB, ← h]
        | procedureDecl pName params blk =>
            cases hpp : processParams params
                (SymbolTable.new pName (st.scopeLevel + 1) (some st)) [] with
            | error e => simp [fvisitA, hpp] at h; simp [visitA, hpp, ← h]
            | ok q =>
                obtain ⟨child₁, fps⟩ := q
                cases hb : fvisitABlock fuel blk
                    (child₁.insertIntoEnclosing (.procedure (.mk pName fps (some blk)))) with
                | none => simp [fvisitA, hpp, hb] at h
                | some x =>
                    have hB := ihB blk
                      (child₁.insertIntoEnclosing (.procedure (.mk pName fps (some blk)))) x hb
                    cases x with
                    | error e =>
                        simp [fvisitA, hpp, hb] at h; simp [visitA, hpp, hB, ← h]
                    | ok p =>
                        obtain ⟨blk', child₂⟩ := p
                        cases hen : child₂.enclosingScope with
                        | none =>
                            simp [fvisitA, hpp, hb, hen] at h
                            simp [visitA, hpp, hB, hen, ← h]
                        | some parent =>
                            simp [fvisitA, hpp, hb, hen] at h
                            simp [visitA, hpp, hB, hen, ← h]
        | procedureCall pName args psym =>
            cases hlk : st.lookup pName true with
            | none => simp [fvisitA, hlk] at h; simp [visitA, hlk, ← h]
            | some sym =>
                cases sym with
                | builtin b => simp [fvisitA, hlk] at h; simp [visitA, hlk, ← h]
                | varS v => simp [fvisitA, hlk] at h; simp [visitA, hlk, ← h]
                | procedure proc =>
                    by_cases hlen : proc.formalParams.length = args.length
                    · cases hargs : fvisitAList fuel args st with
                      | none => simp [fvisitA, hlk, hlen, hargs] at h
                      | some x =>
                          have hArgs := ihL args st x hargs
                          cases x with
                          | error e =>
                              simp [fvisitA, hlk, hlen, hargs] at h
                              simp [visitA, hlk, hlen, hArgs, ← h]
                          | ok p =>
                              obtain ⟨args', st₁⟩ := p
                              cases hlk2 : st₁.lookup pName false with
                              | none =>
                                  simp [fvisitA, hlk, hlen, hargs, hlk2] at h
                                  simp [visitA, hlk, hlen, hArgs, hlk2, ← h]
                              | some sym2 =>
                                  cases sym2 with
                                  | builtin b =>
                                      simp [fvisitA, hlk, hlen, hargs, hlk2] at h
                                      simp [visitA, hlk, hlen, hArgs, hlk2, ← h]
                                  | varS v =>
                                      simp [fvisitA, hlk, hlen, hargs, hlk2] at h
                                      simp [visitA, hlk, hlen, hArgs, hlk2, ← h]
                                  | procedure proc2 =>
                                      simp [fvisitA, hlk, hlen, hargs, hlk2] at h
                                      simp [visitA, hlk, hlen, hArgs, hlk2, ← h]
                    · simp [fvisitA, hlk, hlen] at h
                      simp [visitA, hlk, hlen, ← h]
      · intro b st r h
        obtain ⟨decls, comp⟩ := b
        cases hd : fvisitAList fuel decls st with
        | none => simp [fvisitABlock, hd] at h
        | some x =>
            have hD := ihL decls st x hd
            cases x with
            | error e => simp [fvisitABlock, hd] at h; simp [visitABlock, hD, ← h]
            | ok p =>
                obtain ⟨decls', st₁⟩ := p
                cases hc : fvisitA fuel comp st₁ with
                | none => simp [fvisitABlock, hd, hc] at h
                | some y =>
                    have hC := ihN comp st₁ y hc
                    cases y with
                    | error e =>
                        simp [fvisitABlock, hd, hc] at h
                        simp [visitABlock, hD, hC, ← h]
                    | ok q =>
                        obtain ⟨comp', st₂⟩ := q
                        simp [fvisitABlock, hd, hc] at h
                        simp [visitABlock, hD, hC, ← h]
      · intro l st r h
        cases l with
        | nil => simp [fvisitAList, Option.some.injEq] at h; simp [visitAList, ← h]
        | cons n ns =>
            cases hn : fvisitA fuel n st with
            | none => simp [fvisitAList, hn] at h
            | some x =>
                have hN := ihN n st x hn
                cases x with
                | error e => simp [fvisitAList, hn] at h; simp [visitAList, hN, ← h]
                | ok p =>
                    obtain ⟨n', st₁⟩ := p
                    cases hrest : fvisitAList fuel ns st₁ with
                    | none => simp [fvisitAList, hn, hrest] at h
                    | some y =>
                        have hRest := ihL ns st₁ y hrest
                        cases y with
                        | error e =>
                            simp [fvisitAList, hn, hrest] at h
                            simp [visitAList, hN, hRest, ← h]
                        | ok q =>
                            obtain ⟨ns', st₂⟩ := q
                            simp [fvisitAList, hn, hrest] at h
                            simp [visitAList, hN, hRest, ← h]

/-- C1.  The spec's correctness contract says a program that completes
analysis without error never triggers a variable-miss evaluation error for an
access reachable through the innermost frame's own bindings.  The code
violates it: `caseProgram` passes analysis unchanged, yet execution aborts
with a variable miss, because `visit_assign` stores the binding under the raw
spelling "A" (interpreter.rs line 121) while `visit_var` reads under the
lower-cased spelling "a" (line 128). -/
theorem c1_analysis_ok_but_run_var_miss :
    analyzeProgram caseProgram = .ok caseProgram ∧
    runProgram caseProgram = .error .varMiss := by
  have h₁ : visitA caseProgram (SymbolTable.new "global" 1 Option.none) =
      .ok (caseProgram, SymbolTable.new "" 0 Option.none) :=
    (fvisitA_sound 64).1 _ _ _ rfl
  have h₂ : visitN caseProgram [] = .error .varMiss := (fvisit_sound 64).1 _ _ _ rfl
  refine ⟨?_, h₂⟩
  show (visitA caseProgram (SymbolTable.new "global" 1 Option.none)).map (fun x => x.1) =
    .ok caseProgram
  rw [h₁]
  rfl

/-- C2.  The spec says visit_bin_op applies `+ - * DIV` only to two Integers,
`+ - * /` only to two Floats, and that any other kind combination or operator
is a fatal evaluation error.  The code instead coerces every numeric operand
through f32 (interpreter.rs lines 62-91, flagged by its own
`TODO: This isn't quite right`): `/` on two Integers yields Integer 2,
Integer + Float yields Float 3.5, and DIV on two Floats yields Float 2 —
none of them aborts. -/
theorem c2_bin_op_coerces_instead_of_erroring :
    visitN (.binOp (.num (.integer 10)) .floatDiv (.num (.integer 4))) [] =
      .ok (.integer 2, []) ∧
    visitN (.binOp (.num (.integer 1)) .plus (.num (.float (5 / 2)))) [] =
      .ok (.float (7 / 2), []) ∧
    visitN (.binOp (.num (.float 10)) .integerDiv (.num (.float 4))) [] =
      .ok (.float 2, []) := by
  refine ⟨?_, ?_, ?_⟩ <;>
    simp [visitN, valToFloat, applyBinOp, packBinOpResult, satTrunc, ratTrunc,
      i32Min, i32Max] <;>
    norm_num [Int.tdiv]

/-- C3.  The spec says a procedure call's callee is resolved by a full
scope-chain lookup, so a recursive call resolves.  The code resolves the
callee with a current-scope-only lookup (`lookup(proc_name, true)`,
semantic_analyzer.rs line 169); the Procedure symbol lives in the enclosing
scope, so analysing `recProgram` (P calling itself in its own body) aborts
with IdentifierNotFound instead of succeeding. -/
theorem c3_recursive_call_id_not_found :
    analyzeProgram recProgram = .error (.idNotFound "P") := by
  have h : visitA recProgram (SymbolTable.new "global" 1 Option.none) =
      .error (.idNotFound "P") := (fvisitA_sound 64).1 _ _ _ rfl
  show (visitA recProgram (SymbolTable.new "global" 1 Option.none)).map (fun x => x.1) =
    .error (.idNotFound "P")
  rw [h]
  rfl

/-- C4 counterexample.  The claim says the outermost program frame is
retained on the call stack after execution; running the empty program leaves
the call stack empty, because visit_program pops the frame it pushed
(interpreter.rs line 143). -/
theorem c4_counterexample :
    visitN emptyProgram [] = .ok (.none, ([] : CallStack)) :=
  (fvisit_sound 64).1 _ _ _ rfl

/-- C5.  The spec says a reference to an undeclared identifier anywhere —
including under a unary operator — is rejected with IdentifierNotFound before
execution.  The analyzer's visit_unary_op returns without visiting its
operand (semantic_analyzer.rs lines 42-44), so `unaryProgram` (which reads
the undeclared `b` under a unary minus) passes analysis unchanged and then
aborts during execution with a runtime variable miss. -/
theorem c5_unary_operand_escapes_analysis :
    analyzeProgram unaryProgram = .ok unaryProgram ∧
    runProgram unaryProgram = .error .varMiss := by
  have h₁ : visitA unaryProgram (SymbolTable.new "global" 1 Option.none) =
      .ok (unaryProgram, SymbolTable.new "" 0 Option.none) :=
    (fvisitA_sound 64).1 _ _ _ rfl
  have h₂ : visitN unaryProgram [] = .error .varMiss := (fvisit_sound 64).1 _ _ _ rfl
  refine ⟨?_, h₂⟩
  show (visitA unaryProgram (SymbolTable.new "global" 1 Option.none)).map (fun x => x.1) =
    .ok unaryProgram
  rw [h₁]
  rfl

/-- C6.  The spec says assignment and variable read both key the activation
record by the canonicalized (lower-cased) name, so `A := 5` followed by a
read of `a` (or `A`) yields 5.  In the code only the read canonicalizes:
the assignment stores under the raw key "A" (interpreter.rs line 121), the
read looks up "a" (line 128), misses, and panics. -/
theorem c6_assign_raw_get_lowercased :
    visitN (.assign "A" (.num (.integer 5))) [ActivationRecord.new "prog" .program 1] =
      .ok (.none, [c6Record]) ∧
    visitN (.var "a") [c6Record] = .error .varMiss ∧
    visitN (.var "A") [c6Record] = .error .varMiss :=
  ⟨(fvisit_sound 8).1 _ _ _ rfl, (fvisit_sound 8).1 _ _ _ rfl,
    (fvisit_sound 8).1 _ _ _ rfl⟩

/-- C9 counterexample.  The claim says the duplicate check works under
case-insensitive canonicalization; `dupCaseProgram` declares `A` and `a` in
the same scope, yet analysis succeeds because visit_var_decl looks the name
up exactly as spelled (semantic_analyzer.rs line 100). -/
theorem c9_counterexample :
    analyzeProgram dupCaseProgram = .ok dupCaseProgram := by
  have h : visitA dupCaseProgram (SymbolTable.new "global" 1 Option.none) =
      .ok (dupCaseProgram, SymbolTable.new "" 0 Option.none) :=
    (fvisitA_sound 64).1 _ _ _ rfl
  show (visitA dupCaseProgram (SymbolTable.new "global" 1 Option.none)).map (fun x => x.1) =
    .ok dupCaseProgram
  rw [h]
  rfl
/-- C10.  For every BinaryOp with operator DIV whose operands both evaluate
to Integer values with the right operand Integer 0, evaluation aborts with
the unguarded i32-division panic (modelled as the divByZero abort, a
constructor distinct from every named semantic error kind and from the
kind-mismatch and variable-miss aborts), and no result Value is produced. -/
theorem c10_integer_div_by_zero_panics (l r : Node) (s s₁ s₂ : CallStack) (lv : Int)
    (hl : visitN l s = .ok (.integer lv, s₁))
    (hr : visitN r s₁ = .ok (.integer 0, s₂)) :
    visitN (.binOp l .integerDiv r) s = .error .divByZero := by
  simp [visitN, hl, hr, valToFloat, applyBinOp, satTrunc, ratTrunc, i32Min, i32Max]

/-- C10 witness. -/
theorem c10_witness :
    visitN (.binOp (.num (.integer 10)) .integerDiv (.num (.integer 0))) [] =
      .error .divByZero :=
  c10_integer_div_by_zero_panics (.num (.integer 10)) (.num (.integer 0)) [] [] [] 10
    (by simp [visitN]) (by simp [visitN])

/-- C8.  Every executed assignment writes only to the top-of-stack activation
record: a successful assignment is exactly the right-hand side evaluation
followed by ActivationRecord::set on the head of the resulting stack, all
remaining records being returned untouched — so an outer frame's binding for
a name shadowed in the top frame is unchanged by the assignment. -/
theorem c8_assign_writes_top_frame_only (lName : String) (r : Node) (s : CallStack)
    (v : Value) (s' : CallStack)
    (h : visitN (.assign lName r) s = .ok (v, s')) :
    v = .none ∧ ∃ val ar rest, visitN r s = .ok (val, ar :: rest) ∧
      s' = ar.set lName val :: rest := by
  simp only [visitN] at h
  cases hr : visitN r s with
  | error e => rw [hr] at h; cases h
  | ok p =>
      obtain ⟨val, s₁⟩ := p
      rw [hr] at h
      cases s₁ with
      | nil => cases h
      | cons ar rest =>
          simp only [Except.ok.injEq, Prod.mk.injEq] at h
          exact ⟨h.1.symm, ⟨val, ar, rest, rfl, h.2.symm⟩⟩

/-- C8 witness. -/
theorem c8_witness :
    (Value.none = Value.none ∧ ∃ val ar rest,
      visitN (.num (.integer 7)) [c8Inner, c8Outer] = .ok (val, ar :: rest) ∧
      (c8Inner.set "x" (.integer 7) :: [c8Outer] : CallStack) = ar.set "x" val :: rest) ∧
    c8Outer.get "x" = some (.integer 9) :=
  ⟨c8_assign_writes_top_frame_only "x" (.num (.integer 7)) [c8Inner, c8Outer] .none
      (c8Inner.set "x" (.integer 7) :: [c8Outer])
      ((fvisit_sound 8).1 _ _ _ rfl),
    by simp [c8Outer, ActivationRecord.get]⟩

/-- C4 amended.  Executing a ProgramDecl pushes a Program-kind activation
record with dynamic nesting level 1 and evaluates the block on top of it, but
then pops that frame (rather than retaining it, as the original claim said),
so a completed execution returns to the entry stack depth — for a run started
on the empty stack the final call stack is empty. -/
theorem c4_program_frame_pushed_then_popped (nm : String) (blk : Block)
    (s s' : CallStack) (v : Value)
    (h : visitN (.programN nm blk) s = .ok (v, s')) :
    v = .none ∧
    ∃ s₁, visitBlock blk (ActivationRecord.new nm .program 1 :: s) = .ok s₁ ∧
      s' = s₁.tail ∧ s'.length = s.length := by
  simp only [visitN] at h
  cases hb : visitBlock blk (ActivationRecord.new nm .program 1 :: s) with
  | error e => rw [hb] at h; cases h
  | ok s₁ =>
      rw [hb] at h
      simp only [Except.ok.injEq, Prod.mk.injEq] at h
      have hlen := visitBlock_ok_length hb
      obtain ⟨hv, hs⟩ := h
      refine ⟨hv.symm, s₁, rfl, hs.symm, ?_⟩
      rw [← hs]
      simp only [List.length_tail, List.length_cons] at hlen ⊢
      omega

/-- C4 witness. -/
theorem c4_witness :
    Value.none = Value.none ∧
    ∃ s₁, visitBlock (.mk [] (.compound [])) [ActivationRecord.new "T" .program 1] = .ok s₁ ∧
      ([] : CallStack) = s₁.tail ∧ ([] : CallStack).length = ([] : CallStack).length :=
  c4_program_frame_pushed_then_popped "T" (.mk [] (.compound [])) [] [] .none
    ((fvisit_sound 8).1 _ _ _ rfl)

/-- C7.  Every procedure call that executes to completion decomposes into:
binding the actual arguments in the caller's stack, pushing exactly one fresh
Procedure-kind activation record, evaluating the cached body block, and
popping that record, so the call-stack depth immediately after the call
equals the depth immediately before it; nested and recursive calls inside the
body preserve the depth as well (stack_lengths), keeping push and pop
strictly paired. -/
theorem c7_procedure_call_depth_restored (nm : String) (args : List Node)
    (psym : Option ProcedureSymbol) (s : CallStack) (v : Value) (s' : CallStack)
    (h : visitN (.procedureCall nm args psym) s = .ok (v, s')) :
    s'.length = s.length ∧ v = .none ∧
    ∃ pn fps b ar s₁ s₂, psym = some (.mk pn fps (some b)) ∧
      bindArgs fps args (ActivationRecord.new nm .procedure 2) s = .ok (ar, s₁) ∧
      visitBlock b (ar :: s₁) = .ok s₂ ∧ s' = s₂.tail := by
  cases psym with
  | none => simp [visitN] at h
  | some sym =>
    cases sym with
    | mk pn fps bAst =>
      cases bAst with
      | none =>
          simp only [visitN] at h
          cases hba : bindArgs fps args (ActivationRecord.new nm .procedure 2) s with
          | error e => rw [hba] at h; cases h
          | ok p => rw [hba] at h; cases h
      | some b =>
          simp only [visitN] at h
          cases hba : bindArgs fps args (ActivationRecord.new nm .procedure 2) s with
          | error e => rw [hba] at h; cases h
          | ok p =>
              obtain ⟨ar, s₁⟩ := p
              rw [hba] at h
              dsimp only at h
              cases hvb : visitBlock b (ar :: s₁) with
              | error e => rw [hvb] at h; cases h
              | ok s₂ =>
                  rw [hvb] at h
                  simp only [Except.ok.injEq, Prod.mk.injEq] at h
                  obtain ⟨hv, hs⟩ := h
                  have h₁ := bindArgs_ok_length hba
                  have h₂ := visitBlock_ok_length hvb
                  refine ⟨?_, hv.symm, pn, fps, b, ar, s₁, s₂, rfl, hba, hvb, hs.symm⟩
                  rw [← hs]
                  simp only [List.length_tail, List.length_cons] at h₁ h₂ ⊢
                  omega

/-- C7 witness. -/
theorem c7_witness :
    ([] : CallStack).length = ([] : CallStack).length ∧ Value.none = Value.none ∧
    ∃ pn fps b ar s₁ s₂, some c7Sym = some (ProcedureSymbol.mk pn fps (some b)) ∧
      bindArgs fps [] (ActivationRecord.new "p" .procedure 2) [] = .ok (ar, s₁) ∧
      visitBlock b (ar :: s₁) = .ok s₂ ∧ ([] : CallStack) = s₂.tail :=
  c7_procedure_call_depth_restored "p" [] (some c7Sym) [] .none []
    ((fvisit_sound 8).1 _ _ _ rfl)

/-- C9 amended.  For every variable declaration analyzed, the analyzer first
performs a current-scope-only lookup of the variable's own name exactly as
spelled (case-sensitively, not under canonicalization) and raises
DuplicateIdentifier if a symbol with that exact spelling is already present
in the current scope; otherwise it inserts a Variable symbol.  Hence two
same-spelling declarations in one scope are rejected while a redeclaration in
a nested procedure scope (whose own table lacks the name) is accepted. -/
theorem c9_var_decl_case_sensitive_duplicate_check (vName tyName : String)
    (st : SymbolTable) :
    ((st.lookup vName true).isSome →
        visitA (.varDecl vName tyName) st = .error (.duplicateId vName)) ∧
    (st.lookup vName true = Option.none →
        ∀ tySym, st.lookup (strToUpper tyName) false = some tySym →
          visitA (.varDecl vName tyName) st =
            .ok (.varDecl vName tyName, st.insert (.varS (.mk vName tySym)))) := by
  constructor
  · intro hdup
    simp [visitA, hdup]
  · intro hnone tySym hty
    simp [visitA, hnone, hty]

/-- C9 witness. -/
theorem c9_witness :
    visitA (.varDecl "x" "INTEGER") c9GlobalWithX = .error (.duplicateId "x") ∧
    visitA (.varDecl "x" "INTEGER") c9Child =
      .ok (.varDecl "x" "INTEGER", c9Child.insert (.varS (.mk "x" (.builtin "INTEGER")))) :=
  ⟨(c9_var_decl_case_sensitive_duplicate_check "x" "INTEGER" c9GlobalWithX).1
      (by simp [c9GlobalWithX, SymbolTable.new, SymbolTable.insert, SymbolTable.lookup,
        Symbol.name]),
    (c9_var_decl_case_sensitive_duplicate_check "x" "INTEGER" c9Child).2
      (by simp [c9Child, c9GlobalWithX, SymbolTable.new, SymbolTable.insert,
        SymbolTable.lookup, Symbol.name])
      (.builtin "INTEGER")
      (by simp [c9Child, c9GlobalWithX, SymbolTable.new, SymbolTable.insert,
        SymbolTable.lookup, Symbol.name])⟩

end Pascal
